import Mathlib

/-!
# Windows runner entry point (`windows/runner/main.cpp`)

A shallow embedding of `wWinMain`: the command-line normalisation that turns a
raw `otzaria://` argument into a `--url=` flag, and the bootstrap sequence
(console, COM, window creation, message loop) as a trace of the calls made to
the external collaborators.

* `std::string` is `String`; `std::string::find` is `find`, with
  `std::string::npos` as `none`.
* `std::vector<std::string>` is `List Token`; `push_back` appends at the end.
* The results of the external calls (`AttachConsole`, `IsDebuggerPresent`,
  `GetCommandLineArguments`, `window.Create`, `GetMessage`) are read from an
  environment `Env`; the calls themselves are recorded, in order, in a trace.
* The message loop may run forever, so `wWinMain` takes a bound on the number
  of `GetMessage` calls and returns `none` when the bound is reached.
* The arguments are UTF-8 text (`GetCommandLineArguments` converts them), and
  both needles are ASCII, so searching characters and searching bytes agree.
* The destructors of `window` and `project` that run at either `return` belong
  to the collaborators and are not part of the trace.
-/

namespace Runner

/-! ## Strings -/

/-- An element of `std::vector<std::string>`. -/
abbrev Token := String

/-- The search of `std::string::find` from the characters `s` on, where `pos` is
the index of the head of `s` in the whole string: the lowest position at which
`needle` occurs, `none` for `npos`. -/
def findFrom (needle : List Char) : List Char → Nat → Option Nat
  | [], pos => if needle.isPrefixOf [] then some pos else none
  | c :: cs, pos =>
    if needle.isPrefixOf (c :: cs) then some pos else findFrom needle cs (pos + 1)

/-- The call `s.find(needle)` of `std::string`, searching from position 0. -/
def find (s needle : String) : Option Nat :=
  findFrom needle.data s.data 0

/-! ## External calls -/

/-- A Windows message as filled in by `GetMessage`. -/
abbrev Msg := Nat

/-- The calls `wWinMain` makes to its collaborators, with their arguments. -/
inductive Call where
  | AttachConsole
  | IsDebuggerPresent
  | CreateAndAttachConsole
  | CoInitializeEx
  | DartProject (path : String)
  | GetCommandLineArguments
  | OutputDebugStringA (s : String)
  | set_dart_entrypoint_arguments (arguments : List Token)
  | FlutterWindow
  | Create (title : String) (origin : Int × Int) (size : Nat × Nat)
  | SetQuitOnClose (quit_on_close : Bool)
  | GetMessage
  | TranslateMessage (msg : Msg)
  | DispatchMessage (msg : Msg)
  | CoUninitialize
  deriving DecidableEq, Repr

/-- What the collaborators answer. `GetMessage k` is the return value and the
message of the `k`-th call of `::GetMessage` (counted from 0). -/
structure Env where
  AttachConsole : Bool
  IsDebuggerPresent : Bool
  GetCommandLineArguments : List Token
  Create : Bool
  GetMessage : Nat → Int × Msg

/-- The value of `EXIT_SUCCESS` in `<cstdlib>`. -/
def EXIT_SUCCESS : Int := 0

/-- The value of `EXIT_FAILURE` in `<cstdlib>`. -/
def EXIT_FAILURE : Int := 1

/-! ## The argument loops of `wWinMain` -/

/-- Lines 28-34: the debug print of every argument, `i` being the index of the
head of the remaining arguments. -/
def debugPrint : Nat → List Token → List Call
  | _, [] => []
  | i, arg :: rest =>
    [Call.OutputDebugStringA "Arg ", Call.OutputDebugStringA (toString i),
      Call.OutputDebugStringA ": ", Call.OutputDebugStringA arg,
      Call.OutputDebugStringA "\n"] ++ debugPrint (i + 1) rest

/-- The state after the loop of lines 37-55. -/
structure Scan where
  command_line_arguments : List Token
  urlFound : Bool
  output : List Call
  deriving DecidableEq, Repr

/-- Lines 38-55: the range-based `for` over `command_line_arguments`; the
second argument holds the elements still to be visited. Both branches that set
`urlFound` leave the loop with `break`. -/
def urlLoop (command_line_arguments : List Token) : List Token → Scan
  | [] => ⟨command_line_arguments, false, []⟩
  | arg :: rest =>
    if find arg "--url=" = some 0 then
      ⟨command_line_arguments, true, []⟩
    else if find arg "otzaria://" ≠ none then
      ⟨command_line_arguments ++ ["--url=" ++ arg], true,
        [Call.OutputDebugStringA "Found URL in arguments: ",
          Call.OutputDebugStringA arg, Call.OutputDebugStringA "\n"]⟩
    else urlLoop command_line_arguments rest

/-- Lines 37-57: the argument list handed to `set_dart_entrypoint_arguments`
for the raw arguments `args`. -/
def normalize (args : List Token) : List Token :=
  (urlLoop args args).command_line_arguments

/-! ## The bootstrap -/

/-- Lines 68-71: the message loop. `k` counts the `GetMessage` calls made so
far, `fuel` bounds the calls still allowed. -/
def messageLoop (env : Env) : Nat → Nat → List Call → Option (List Call)
  | 0, _, _ => none
  | fuel + 1, k, trace =>
    if (env.GetMessage k).1 ≠ 0 then
      messageLoop env fuel (k + 1)
        (trace ++ [Call.GetMessage, Call.TranslateMessage (env.GetMessage k).2,
          Call.DispatchMessage (env.GetMessage k).2])
    else some (trace ++ [Call.GetMessage])

/-- Lines 14-16: console attachment; `&&` evaluates `IsDebuggerPresent` only
when `AttachConsole` failed. -/
def attachConsole (env : Env) : List Call :=
  [Call.AttachConsole] ++
    (if !env.AttachConsole then
      [Call.IsDebuggerPresent] ++
        (if env.IsDebuggerPresent then [Call.CreateAndAttachConsole] else [])
    else [])

/-- Lines 14-62: everything `wWinMain` does up to and including the call of
`window.Create`. -/
def startup (env : Env) : List Call :=
  attachConsole env ++
    [Call.CoInitializeEx, Call.DartProject "data", Call.GetCommandLineArguments] ++
    debugPrint 0 env.GetCommandLineArguments ++
    (urlLoop env.GetCommandLineArguments env.GetCommandLineArguments).output ++
    [Call.set_dart_entrypoint_arguments (normalize env.GetCommandLineArguments),
      Call.FlutterWindow, Call.Create "אוצריא" (10, 10) (1280, 720)]

/-- The function `wWinMain`: the exit status it returns and the trace of its
calls, or `none` when `fuel` calls of `GetMessage` did not reach the end of the
message loop. -/
def wWinMain (env : Env) (fuel : Nat) : Option (Int × List Call) :=
  if !env.Create then
    some (EXIT_FAILURE, startup env)
  else
    match messageLoop env fuel 0 (startup env ++ [Call.SetQuitOnClose true]) with
    | none => none
    | some trace => some (EXIT_SUCCESS, trace ++ [Call.CoUninitialize])

/-! ## The vocabulary of the specification -/

/-- The token starts with the literal prefix `--url=`. -/
def HasUrlFlag (t : Token) : Prop := "--url=".data <+: t.data

/-- The token contains the literal substring `otzaria://` somewhere. -/
def HasScheme (t : Token) : Prop := "otzaria://".data <:+: t.data

/-- A deep-link token: already in `--url=` form, or carrying the raw scheme. -/
def DeepLinkToken (t : Token) : Prop := HasUrlFlag t ∨ HasScheme t

instance (t : Token) : Decidable (HasUrlFlag t) := by unfold HasUrlFlag; infer_instance

instance (t : Token) : Decidable (HasScheme t) := by unfold HasScheme; infer_instance

instance (t : Token) : Decidable (DeepLinkToken t) := by unfold DeepLinkToken; infer_instance

/-- The first deep-link token of an argument list, in order, if there is one. -/
def firstDeepLink (args : List Token) : Option Token :=
  args.find? (fun t => decide (DeepLinkToken t))

/-- The number of tokens of the list that start with `--url=`. -/
def urlFlagCount (args : List Token) : Nat :=
  args.countP (fun t => decide (HasUrlFlag t))

/-- The number of tokens of the list that contain `otzaria://`. -/
def schemeCount (args : List Token) : Nat :=
  args.countP (fun t => decide (HasScheme t))

/-- One iteration of the message loop on the `k`-th message: retrieve,
translate, dispatch. -/
def iteration (env : Env) (k : Nat) : List Call :=
  [Call.GetMessage, Call.TranslateMessage (env.GetMessage k).2,
    Call.DispatchMessage (env.GetMessage k).2]

/-- The argument lists handed to `set_dart_entrypoint_arguments` in a trace, in
order. -/
def handedArguments (trace : List Call) : List (List Token) :=
  trace.filterMap fun c =>
    match c with
    | Call.set_dart_entrypoint_arguments arguments => some arguments
    | _ => none

/-- The calls that belong to the running window: `SetQuitOnClose` and the three
calls of the message loop. -/
def windowLoopCall : Call → Bool
  | Call.SetQuitOnClose _ => true
  | Call.GetMessage => true
  | Call.TranslateMessage _ => true
  | Call.DispatchMessage _ => true
  | _ => false

/-- A run in which `window.Create` fails: launched from a deep link, no parent
console, no debugger. -/
def failedCreateEnv : Env :=
  ⟨false, false, ["otzaria://book/123"], false, fun _ => (0, 0)⟩

/-- A run in which the window is created and three messages arrive: message 7
(`GetMessage` returns 1), message 8 (`GetMessage` returns -1), then the quit
message (`GetMessage` returns 0). -/
def quitAfterTwoEnv : Env :=
  ⟨true, false, [], true,
    fun k => if k = 0 then (1, 7) else if k = 1 then (-1, 8) else (0, 18)⟩

/-! ## `std::string::find` -/

theorem findFrom_ge (needle : List Char) :
    ∀ (s : List Char) (pos r : Nat), findFrom needle s pos = some r → pos ≤ r := by
  intro s
  induction s with
  | nil =>
    intro pos r h
    simp only [findFrom] at h
    split at h
    · simp only [Option.some.injEq] at h; omega
    · simp at h
  | cons c cs ih =>
    intro pos r h
    simp only [findFrom] at h
    split at h
    · simp only [Option.some.injEq] at h; omega
    · have := ih _ _ h; omega

/-- A match at the starting position is a match of the needle as a prefix. -/
theorem findFrom_eq_start_iff (needle s : List Char) (pos : Nat) :
    findFrom needle s pos = some pos ↔ needle <+: s := by
  cases s with
  | nil =>
    simp only [findFrom]
    by_cases h : needle.isPrefixOf [] = true
    · rw [if_pos h]; simp only [true_iff]; exact List.isPrefixOf_iff_prefix.mp h
    · rw [if_neg h]
      constructor
      · intro h1; simp at h1
      · intro h1; exact absurd (List.isPrefixOf_iff_prefix.mpr h1) h
  | cons c cs =>
    simp only [findFrom]
    by_cases h : needle.isPrefixOf (c :: cs) = true
    · rw [if_pos h]; simp only [true_iff]; exact List.isPrefixOf_iff_prefix.mp h
    · rw [if_neg h]
      constructor
      · intro h1
        have := findFrom_ge needle cs (pos + 1) pos h1
        omega
      · intro h1; exact absurd (List.isPrefixOf_iff_prefix.mpr h1) h

/-- The search finds a position exactly when the needle is a substring. -/
theorem findFrom_ne_none_iff (needle : List Char) :
    ∀ (s : List Char) (pos : Nat), findFrom needle s pos ≠ none ↔ needle <:+: s := by
  intro s
  induction s with
  | nil =>
    intro pos
    simp only [findFrom]
    by_cases h : needle.isPrefixOf [] = true
    · rw [if_pos h]
      have h1 : needle <+: [] := List.isPrefixOf_iff_prefix.mp h
      rw [List.prefix_nil] at h1
      simp [h1]
    · rw [if_neg h]
      constructor
      · intro h1; exact absurd rfl h1
      · intro h1
        rw [List.infix_nil] at h1
        subst h1
        simp at h
  | cons c cs ih =>
    intro pos
    simp only [findFrom]
    rw [List.infix_cons_iff]
    by_cases h : needle.isPrefixOf (c :: cs) = true
    · rw [if_pos h]
      constructor
      · intro _; exact Or.inl (List.isPrefixOf_iff_prefix.mp h)
      · intro _; simp
    · rw [if_neg h]
      rw [ih]
      constructor
      · intro h1; exact Or.inr h1
      · intro h1
        rcases h1 with h1 | h1
        · exact absurd (List.isPrefixOf_iff_prefix.mpr h1) h
        · exact h1

theorem find_url_flag_iff (t : Token) : find t "--url=" = some 0 ↔ HasUrlFlag t :=
  findFrom_eq_start_iff _ _ 0

theorem find_scheme_iff (t : Token) : find t "otzaria://" ≠ none ↔ HasScheme t :=
  findFrom_ne_none_iff _ _ 0

/-! ## The loop of lines 38-55 -/

theorem urlLoop_flag (v : List Token) (arg : Token) (rest : List Token)
    (h : HasUrlFlag arg) : urlLoop v (arg :: rest) = ⟨v, true, []⟩ := by
  simp only [urlLoop]
  rw [if_pos ((find_url_flag_iff arg).mpr h)]

theorem urlLoop_raw (v : List Token) (arg : Token) (rest : List Token)
    (h : ¬ HasUrlFlag arg) (hs : HasScheme arg) :
    (urlLoop v (arg :: rest)).command_line_arguments = v ++ ["--url=" ++ arg] := by
  simp only [urlLoop]
  rw [if_neg (fun hf => h ((find_url_flag_iff arg).mp hf)),
    if_pos ((find_scheme_iff arg).mpr hs)]

theorem urlLoop_skip (v : List Token) (arg : Token) (rest : List Token)
    (h : ¬ DeepLinkToken arg) : urlLoop v (arg :: rest) = urlLoop v rest := by
  have h1 : ¬ HasUrlFlag arg := fun hf => h (Or.inl hf)
  have h2 : ¬ HasScheme arg := fun hf => h (Or.inr hf)
  simp only [urlLoop]
  rw [if_neg (fun hf => h1 ((find_url_flag_iff arg).mp hf)),
    if_neg (fun hf => h2 ((find_scheme_iff arg).mp hf))]

theorem urlLoop_skip_all (v : List Token) (rest : List Token) :
    ∀ pre : List Token, (∀ x ∈ pre, ¬ DeepLinkToken x) →
      urlLoop v (pre ++ rest) = urlLoop v rest := by
  intro pre
  induction pre with
  | nil => intro _; rfl
  | cons a pre ih =>
    intro h
    rw [List.cons_append, urlLoop_skip v a _ (h a (List.mem_cons_self a pre))]
    exact ih (fun x hx => h x (List.mem_cons_of_mem a hx))

theorem urlLoop_no_deep_link (v : List Token) (args : List Token)
    (h : ∀ x ∈ args, ¬ DeepLinkToken x) : urlLoop v args = ⟨v, false, []⟩ := by
  have := urlLoop_skip_all v [] args h
  rw [List.append_nil] at this
  rw [this]
  rfl

theorem urlLoop_flag_before_raw (v : List Token) (u : Token) (post : List Token)
    (hu : HasUrlFlag u) :
    ∀ pre : List Token, (∀ x ∈ pre, HasScheme x → HasUrlFlag x) →
      (urlLoop v (pre ++ u :: post)).command_line_arguments = v := by
  intro pre
  induction pre with
  | nil => intro _; rw [List.nil_append, urlLoop_flag v u post hu]
  | cons a pre ih =>
    intro h
    rw [List.cons_append]
    by_cases ha : HasUrlFlag a
    · rw [urlLoop_flag v a _ ha]
    · have hd : ¬ DeepLinkToken a := by
        rintro (h1 | h1)
        · exact ha h1
        · exact ha (h a (List.mem_cons_self a pre) h1)
      rw [urlLoop_skip v a _ hd]
      exact ih (fun x hx => h x (List.mem_cons_of_mem a hx))

/-- The loop leaves the vector as it was or with one `--url=` token pushed. -/
theorem urlLoop_cases (v : List Token) :
    ∀ args : List Token,
      (urlLoop v args).command_line_arguments = v ∨
        ∃ t ∈ args, (urlLoop v args).command_line_arguments = v ++ ["--url=" ++ t] := by
  intro args
  induction args with
  | nil => exact Or.inl rfl
  | cons a rest ih =>
    by_cases ha : HasUrlFlag a
    · rw [urlLoop_flag v a rest ha]; exact Or.inl rfl
    · by_cases hs : HasScheme a
      · exact Or.inr ⟨a, List.mem_cons_self a rest, urlLoop_raw v a rest ha hs⟩
      · have hd : ¬ DeepLinkToken a := by
          rintro (h1 | h1)
          · exact ha h1
          · exact hs h1
        rw [urlLoop_skip v a rest hd]
        rcases ih with h1 | ⟨t, ht, h1⟩
        · exact Or.inl h1
        · exact Or.inr ⟨t, List.mem_cons_of_mem a ht, h1⟩

/-! ## The trace up to window creation -/

theorem handedArguments_debugPrint :
    ∀ (args : List Token) (i : Nat), handedArguments (debugPrint i args) = [] := by
  intro args
  induction args with
  | nil => intro i; rfl
  | cons a rest ih =>
    intro i
    have := ih (i + 1)
    simp only [handedArguments] at this
    simp [debugPrint, handedArguments, this]

theorem handedArguments_urlLoop (v : List Token) :
    ∀ args : List Token, handedArguments (urlLoop v args).output = [] := by
  intro args
  induction args with
  | nil => rfl
  | cons a rest ih =>
    simp only [urlLoop]
    split
    · rfl
    · split
      · rfl
      · exact ih

theorem handedArguments_attachConsole (env : Env) :
    handedArguments (attachConsole env) = [] := by
  unfold attachConsole handedArguments
  cases env.AttachConsole <;> cases env.IsDebuggerPresent <;> rfl

/-- The runtime adapter is handed one list before the window is created: the
normalised one. -/
theorem handedArguments_startup (env : Env) :
    handedArguments (startup env) = [normalize env.GetCommandLineArguments] := by
  have h1 := handedArguments_attachConsole env
  have h2 := handedArguments_debugPrint env.GetCommandLineArguments 0
  have h3 := handedArguments_urlLoop env.GetCommandLineArguments env.GetCommandLineArguments
  simp only [handedArguments] at h1 h2 h3
  simp [startup, handedArguments, List.filterMap_append, h1, h2, h3]

/-! ## The normaliser -/

/-- C1: when the first token, in order, that starts with `--url=` or contains
`otzaria://` is a token `t` that does not start with `--url=`, the list handed
to `set_dart_entrypoint_arguments` is the input list followed by the one token
`"--url=" ++ t`, whatever the tokens after `t` are. -/
theorem normalize_first_raw (pre post : List Token) (t : Token)
    (hpre : ∀ x ∈ pre, ¬ DeepLinkToken x) (ht : DeepLinkToken t)
    (hraw : ¬ HasUrlFlag t) :
    normalize (pre ++ t :: post) = (pre ++ t :: post) ++ ["--url=" ++ t] ∧
      ∀ env : Env, env.GetCommandLineArguments = pre ++ t :: post →
        handedArguments (startup env) = [(pre ++ t :: post) ++ ["--url=" ++ t]] := by
  have hs : HasScheme t := ht.resolve_left hraw
  have hn : normalize (pre ++ t :: post) = (pre ++ t :: post) ++ ["--url=" ++ t] := by
    unfold normalize
    rw [urlLoop_skip_all _ _ pre hpre]
    exact urlLoop_raw _ t post hraw hs
  refine ⟨hn, ?_⟩
  intro env henv
  rw [handedArguments_startup, henv, hn]

/-- Scenario 4 of the specification with a later `--url=` token added. -/
theorem normalize_first_raw_witness :
    normalize (["foo"] ++ "otzaria://x" :: ["otzaria://y", "--url=z"]) =
        (["foo"] ++ "otzaria://x" :: ["otzaria://y", "--url=z"]) ++ ["--url=" ++ "otzaria://x"] ∧
      ∀ env : Env,
        env.GetCommandLineArguments = ["foo"] ++ "otzaria://x" :: ["otzaria://y", "--url=z"] →
        handedArguments (startup env) =
          [(["foo"] ++ "otzaria://x" :: ["otzaria://y", "--url=z"]) ++
            ["--url=" ++ "otzaria://x"]] :=
  normalize_first_raw ["foo"] ["otzaria://y", "--url=z"] "otzaria://x"
    (by decide) (by decide) (by decide)

/-- C2: an argument list, the empty one included, in which no token starts with
`--url=` and no token contains `otzaria://` is handed on exactly as it is. -/
theorem normalize_identity (args : List Token)
    (h : ∀ x ∈ args, ¬ HasUrlFlag x ∧ ¬ HasScheme x) : normalize args = args := by
  unfold normalize
  rw [urlLoop_no_deep_link args args]
  intro x hx hd
  rcases hd with h1 | h1
  · exact (h x hx).1 h1
  · exact (h x hx).2 h1

/-- Near misses of both patterns are left alone. -/
theorem normalize_identity_witness :
    (∀ x ∈ ["--urlx", "otzaria:/", "foo"], ¬ HasUrlFlag x ∧ ¬ HasScheme x) ∧
      normalize ["--urlx", "otzaria:/", "foo"] = ["--urlx", "otzaria:/", "foo"] :=
  ⟨by decide, normalize_identity ["--urlx", "otzaria:/", "foo"] (by decide)⟩


/-- The single token `--url=otzaria://book/123` contains `otzaria://` and has no
token before it, yet nothing is appended: the test for the `--url=` prefix comes
first (scenario 3 of the specification). -/
theorem normalize_single_scheme_counterexample :
    HasScheme "--url=otzaria://book/123" ∧
      (∀ x ∈ ([] : List Token), ¬ HasScheme x) ∧
      (∀ x ∈ ([] : List Token), ¬ HasScheme x) ∧
      (∀ x ∈ ([] : List Token), ¬ HasUrlFlag x) ∧
      normalize ([] ++ "--url=otzaria://book/123" :: []) = ["--url=otzaria://book/123"] ∧
      normalize ([] ++ "--url=otzaria://book/123" :: []) ≠
        ([] ++ "--url=otzaria://book/123" :: []) ++ ["--url=" ++ "--url=otzaria://book/123"] := by
  decide

/-- C3, amended: when exactly one token `T` of the list contains `otzaria://`,
`T` itself does not start with `--url=`, and no token before `T` starts with
`--url=`, the normalised list is the input list followed by the one token
`"--url=" ++ T`. -/
theorem normalize_single_scheme (pre post : List Token) (T : Token)
    (hT : HasScheme T) (hraw : ¬ HasUrlFlag T)
    (hpre : ∀ x ∈ pre, ¬ HasScheme x) (_hpost : ∀ x ∈ post, ¬ HasScheme x)
    (hflag : ∀ x ∈ pre, ¬ HasUrlFlag x) :
    normalize (pre ++ T :: post) = (pre ++ T :: post) ++ ["--url=" ++ T] := by
  have hd : ∀ x ∈ pre, ¬ DeepLinkToken x := by
    intro x hx h
    rcases h with h1 | h1
    · exact hflag x hx h1
    · exact hpre x hx h1
  unfold normalize
  rw [urlLoop_skip_all _ _ pre hd]
  exact urlLoop_raw _ T post hraw hT

/-- A raw deep link followed by a `--url=` token. -/
theorem normalize_single_scheme_witness :
    normalize (["app.exe"] ++ "otzaria://book/123" :: ["--url=late", "-v"]) =
      (["app.exe"] ++ "otzaria://book/123" :: ["--url=late", "-v"]) ++
        ["--url=" ++ "otzaria://book/123"] :=
  normalize_single_scheme ["app.exe"] ["--url=late", "-v"] "otzaria://book/123"
    (by decide) (by decide) (by decide) (by decide) (by decide)

/-- C4: when a token starting with `--url=` comes before every raw `otzaria://`
token (a token that contains `otzaria://` without starting with `--url=`), the
normalised list is the input list; the `--url=` token may itself carry an
`otzaria://` payload. -/
theorem normalize_flag_first (pre post : List Token) (u : Token)
    (hu : HasUrlFlag u) (hpre : ∀ x ∈ pre, HasScheme x → HasUrlFlag x) :
    normalize (pre ++ u :: post) = pre ++ u :: post := by
  unfold normalize
  exact urlLoop_flag_before_raw _ u post hu pre hpre

/-- A `--url=` token with an `otzaria://` payload, ahead of a raw deep link. -/
theorem normalize_flag_first_witness :
    normalize (["foo"] ++ "--url=otzaria://book/123" :: ["otzaria://y"]) =
      ["foo"] ++ "--url=otzaria://book/123" :: ["otzaria://y"] :=
  normalize_flag_first ["foo"] ["otzaria://y"] "--url=otzaria://book/123"
    (by decide) (by decide)

/-! ## The normaliser in terms of the first deep-link token -/

theorem hasUrlFlag_pushed (t : Token) : HasUrlFlag ("--url=" ++ t) := by
  unfold HasUrlFlag
  rw [String.data_append]
  exact List.prefix_append _ _

theorem firstDeepLink_cons_pos (a : Token) (rest : List Token) (h : DeepLinkToken a) :
    firstDeepLink (a :: rest) = some a := by
  simp [firstDeepLink, List.find?_cons, h]

theorem firstDeepLink_cons_neg (a : Token) (rest : List Token) (h : ¬ DeepLinkToken a) :
    firstDeepLink (a :: rest) = firstDeepLink rest := by
  simp [firstDeepLink, List.find?_cons, h]

theorem firstDeepLink_append (args extra : List Token) (t : Token)
    (h : firstDeepLink args = some t) : firstDeepLink (args ++ extra) = some t := by
  unfold firstDeepLink at h ⊢
  rw [List.find?_append, h]
  rfl

theorem firstDeepLink_some (args : List Token) (t : Token)
    (h : firstDeepLink args = some t) : DeepLinkToken t ∧ t ∈ args := by
  unfold firstDeepLink at h
  have h1 := List.find?_some h
  exact ⟨of_decide_eq_true h1, List.mem_of_find?_eq_some h⟩

theorem firstDeepLink_none (args : List Token) (h : firstDeepLink args = none) :
    ∀ x ∈ args, ¬ DeepLinkToken x := by
  unfold firstDeepLink at h
  rw [List.find?_eq_none] at h
  intro x hx hd
  exact h x hx (decide_eq_true hd)

/-- What the loop leaves in the vector, by the first deep-link token visited. -/
theorem urlLoop_first (v : List Token) :
    ∀ args : List Token,
      (urlLoop v args).command_line_arguments =
        match firstDeepLink args with
        | none => v
        | some t => if HasUrlFlag t then v else v ++ ["--url=" ++ t] := by
  intro args
  induction args with
  | nil => rfl
  | cons a rest ih =>
    by_cases ha : HasUrlFlag a
    · rw [urlLoop_flag v a rest ha, firstDeepLink_cons_pos a rest (Or.inl ha)]
      simp only [if_pos ha]
    · by_cases hs : HasScheme a
      · rw [urlLoop_raw v a rest ha hs, firstDeepLink_cons_pos a rest (Or.inr hs)]
        simp only [if_neg ha]
      · have hd : ¬ DeepLinkToken a := by
          rintro (h1 | h1)
          · exact ha h1
          · exact hs h1
        rw [urlLoop_skip v a rest hd, firstDeepLink_cons_neg a rest hd]
        exact ih

theorem normalize_first (x : List Token) :
    normalize x =
      match firstDeepLink x with
      | none => x
      | some t => if HasUrlFlag t then x else x ++ ["--url=" ++ t] :=
  urlLoop_first x x


/-- Scenario 2 run twice: the second pass appends the `--url=` token again. -/
theorem normalize_idempotent_counterexample :
    normalize ["otzaria://a"] = ["otzaria://a", "--url=otzaria://a"] ∧
      normalize (normalize ["otzaria://a"]) =
        ["otzaria://a", "--url=otzaria://a", "--url=otzaria://a"] ∧
      normalize (normalize ["otzaria://a"]) ≠ normalize ["otzaria://a"] := by
  decide

/-- C5, amended: normalising a normalised list changes nothing when the input
has no deep-link token or its first deep-link token starts with `--url=`; when
the first deep-link token `t` is a raw `otzaria://` token, the second pass still
meets `t` first and appends `"--url=" ++ t` once more. -/
theorem normalize_normalize (x : List Token) :
    normalize (normalize x) =
      match firstDeepLink x with
      | none => normalize x
      | some t => if HasUrlFlag t then normalize x else normalize x ++ ["--url=" ++ t] := by
  cases hf : firstDeepLink x with
  | none =>
    have hx : normalize x = x := by rw [normalize_first, hf]
    simp only [hx]
  | some t =>
    by_cases ht : HasUrlFlag t
    · have hx : normalize x = x := by rw [normalize_first, hf]; simp only [if_pos ht]
      simp only [if_pos ht, hx]
    · have hx : normalize x = x ++ ["--url=" ++ t] := by
        rw [normalize_first, hf]; simp only [if_neg ht]
      simp only [if_neg ht]
      rw [hx, normalize_first, firstDeepLink_append x _ t hf]
      simp only [if_neg ht]

/-- Two inputs with a deep-link token whose normalised list holds two `--url=`
tokens: two flags passed through, and a raw deep link ahead of a flag. -/
theorem urlFlagCount_counterexample :
    (∃ t ∈ ["--url=a", "--url=b"], DeepLinkToken t) ∧
      normalize ["--url=a", "--url=b"] = ["--url=a", "--url=b"] ∧
      urlFlagCount (normalize ["--url=a", "--url=b"]) = 2 ∧
      (∃ t ∈ ["otzaria://x", "--url=y"], DeepLinkToken t) ∧
      urlFlagCount (normalize ["otzaria://x", "--url=y"]) = 2 := by
  decide

theorem urlFlagCount_pos (args : List Token) (t : Token) (hm : t ∈ args)
    (ht : HasUrlFlag t) : 1 ≤ urlFlagCount args := by
  unfold urlFlagCount
  exact List.countP_pos_iff.mpr ⟨t, hm, decide_eq_true ht⟩

theorem urlFlagCount_push (args : List Token) (t : Token) :
    urlFlagCount (args ++ ["--url=" ++ t]) = urlFlagCount args + 1 := by
  unfold urlFlagCount
  rw [List.countP_append]
  have := hasUrlFlag_pushed t
  simp [List.countP_cons, this]

/-- C6, amended: when the input has a deep-link token, at least one token of
the normalised list starts with `--url=`; exactly one does precisely when the
input has no token starting with `--url=`, or has exactly one and that token is
the first deep-link token of the input. -/
theorem urlFlagCount_normalize (x : List Token) (h : ∃ t ∈ x, DeepLinkToken t) :
    1 ≤ urlFlagCount (normalize x) ∧
      (urlFlagCount (normalize x) = 1 ↔
        urlFlagCount x = 0 ∨
          (urlFlagCount x = 1 ∧ ∃ t, firstDeepLink x = some t ∧ HasUrlFlag t)) := by
  cases hf : firstDeepLink x with
  | none =>
    obtain ⟨t, hm, ht⟩ := h
    exact absurd ht (firstDeepLink_none x hf t hm)
  | some t =>
    have hmem := (firstDeepLink_some x t hf).2
    by_cases ht : HasUrlFlag t
    · have hx : normalize x = x := by rw [normalize_first, hf]; simp only [if_pos ht]
      have hpos := urlFlagCount_pos x t hmem ht
      rw [hx]
      refine ⟨hpos, ?_⟩
      constructor
      · intro h1; exact Or.inr ⟨h1, t, rfl, ht⟩
      · intro h1
        rcases h1 with h1 | h1
        · omega
        · exact h1.1
    · have hx : normalize x = x ++ ["--url=" ++ t] := by
        rw [normalize_first, hf]; simp only [if_neg ht]
      rw [hx, urlFlagCount_push]
      refine ⟨by omega, ?_⟩
      constructor
      · intro h1; left; omega
      · intro h1
        rcases h1 with h1 | ⟨_, t2, h2, h3⟩
        · omega
        · rw [Option.some.injEq] at h2
          subst h2
          exact absurd h3 ht

/-- Scenario 4 of the specification. -/
theorem urlFlagCount_normalize_witness :
    1 ≤ urlFlagCount (normalize ["foo", "otzaria://x", "otzaria://y"]) ∧
      (urlFlagCount (normalize ["foo", "otzaria://x", "otzaria://y"]) = 1 ↔
        urlFlagCount ["foo", "otzaria://x", "otzaria://y"] = 0 ∨
          (urlFlagCount ["foo", "otzaria://x", "otzaria://y"] = 1 ∧
            ∃ t, firstDeepLink ["foo", "otzaria://x", "otzaria://y"] = some t ∧
              HasUrlFlag t)) :=
  urlFlagCount_normalize ["foo", "otzaria://x", "otzaria://y"]
    ⟨"otzaria://x", by decide, by decide⟩

/-- C7: the input list is a prefix of the normalised list, so no original token
is removed, altered or moved, and the normalised list has the length of the
input or one token more. -/
theorem normalize_preserves (x : List Token) :
    x <+: normalize x ∧
      ((normalize x).length = x.length ∨ (normalize x).length = x.length + 1) := by
  unfold normalize
  rcases urlLoop_cases x x with h | ⟨t, _, h⟩
  · rw [h]
    exact ⟨List.prefix_refl x, Or.inl rfl⟩
  · rw [h]
    refine ⟨List.prefix_append x _, Or.inr ?_⟩
    simp


/-! ## The bootstrap trace -/

theorem debugPrint_mem :
    ∀ (args : List Token) (i : Nat) (c : Call), c ∈ debugPrint i args →
      ∃ s, c = Call.OutputDebugStringA s := by
  intro args
  induction args with
  | nil => intro i c h; simp [debugPrint] at h
  | cons a rest ih =>
    intro i c h
    simp only [debugPrint, List.mem_append, List.mem_cons, List.mem_singleton,
      List.not_mem_nil, or_false] at h
    rcases h with h | h
    · rcases h with h | h | h | h | h <;> exact ⟨_, h⟩
    · exact ih _ _ h

theorem urlLoop_output_mem (v : List Token) :
    ∀ (args : List Token) (c : Call), c ∈ (urlLoop v args).output →
      ∃ s, c = Call.OutputDebugStringA s := by
  intro args
  induction args with
  | nil => intro c h; simp [urlLoop] at h
  | cons a rest ih =>
    intro c h
    simp only [urlLoop] at h
    split at h
    · simp at h
    · split at h
      · simp only [List.mem_cons, List.mem_singleton, List.not_mem_nil, or_false] at h
        rcases h with h | h | h <;> exact ⟨_, h⟩
      · exact ih c h

theorem attachConsole_mem (env : Env) (c : Call) (h : c ∈ attachConsole env) :
    c = Call.AttachConsole ∨ c = Call.IsDebuggerPresent ∨ c = Call.CreateAndAttachConsole := by
  unfold attachConsole at h
  cases h1 : env.AttachConsole <;> cases h2 : env.IsDebuggerPresent <;>
    simp [h1, h2] at h <;> tauto

/-- Every call made up to and including `window.Create`. -/
theorem startup_mem (env : Env) (c : Call) (h : c ∈ startup env) :
    c = Call.AttachConsole ∨ c = Call.IsDebuggerPresent ∨ c = Call.CreateAndAttachConsole ∨
      c = Call.CoInitializeEx ∨ c = Call.DartProject "data" ∨
      c = Call.GetCommandLineArguments ∨ (∃ s, c = Call.OutputDebugStringA s) ∨
      c = Call.set_dart_entrypoint_arguments (normalize env.GetCommandLineArguments) ∨
      c = Call.FlutterWindow ∨ c = Call.Create "אוצריא" (10, 10) (1280, 720) := by
  unfold startup at h
  simp only [List.mem_append, List.mem_cons, List.mem_singleton, List.not_mem_nil,
    or_false] at h
  rcases h with (((h | h) | h) | h) | h
  · rcases attachConsole_mem env c h with h | h | h <;> simp [h]
  · rcases h with h | h | h <;> simp [h]
  · obtain ⟨s, hs⟩ := debugPrint_mem _ _ c h
    simp [hs]
  · obtain ⟨s, hs⟩ := urlLoop_output_mem _ _ c h
    simp [hs]
  · rcases h with h | h | h <;> simp [h]

theorem startup_no_windowLoopCall (env : Env) :
    ∀ c ∈ startup env, windowLoopCall c = false := by
  intro c h
  rcases startup_mem env c h with h | h | h | h | h | h | ⟨s, h⟩ | h | h | h <;>
    rw [h] <;> rfl

theorem attachConsole_count (env : Env) :
    (attachConsole env).count Call.CoInitializeEx = 0 ∧
      (attachConsole env).count Call.CoUninitialize = 0 := by
  unfold attachConsole
  cases env.AttachConsole <;> cases env.IsDebuggerPresent <;> decide

theorem debugPrint_count (args : List Token) (i : Nat) :
    (debugPrint i args).count Call.CoInitializeEx = 0 ∧
      (debugPrint i args).count Call.CoUninitialize = 0 := by
  constructor <;>
  · rw [List.count_eq_zero]
    intro h
    obtain ⟨s, hs⟩ := debugPrint_mem _ _ _ h
    cases hs

theorem urlLoop_output_count (v args : List Token) :
    (urlLoop v args).output.count Call.CoInitializeEx = 0 ∧
      (urlLoop v args).output.count Call.CoUninitialize = 0 := by
  constructor <;>
  · rw [List.count_eq_zero]
    intro h
    obtain ⟨s, hs⟩ := urlLoop_output_mem _ _ _ h
    cases hs

/-- Up to `window.Create`, COM has been initialised once and not torn down. -/
theorem startup_count (env : Env) :
    (startup env).count Call.CoInitializeEx = 1 ∧
      (startup env).count Call.CoUninitialize = 0 := by
  have h1 := attachConsole_count env
  have h2 := debugPrint_count env.GetCommandLineArguments 0
  have h3 := urlLoop_output_count env.GetCommandLineArguments env.GetCommandLineArguments
  unfold startup
  simp only [List.count_append, h1.1, h1.2, h2.1, h2.2, h3.1, h3.2]
  constructor <;> simp [List.count_cons]


/-! ## The message loop -/

theorem range_succ_flatMap (f : Nat → List Call) (n : Nat) :
    (List.range (n + 1)).flatMap f = f 0 ++ (List.range n).flatMap (fun j => f (j + 1)) := by
  rw [List.range_succ_eq_map, List.flatMap_cons, List.flatMap_map]

/-- When the first zero result after `k` calls lies `n` calls ahead, the loop
runs `n` iterations and ends on the `GetMessage` call that returns zero. -/
theorem messageLoop_quit (env : Env) :
    ∀ (n fuel k : Nat) (trace : List Call),
      (∀ j < n, (env.GetMessage (k + j)).1 ≠ 0) → (env.GetMessage (k + n)).1 = 0 →
      n < fuel →
      messageLoop env fuel k trace =
        some (trace ++ (List.range n).flatMap (fun j => iteration env (k + j)) ++
          [Call.GetMessage]) := by
  intro n
  induction n with
  | zero =>
    intro fuel k trace _ hq hf
    obtain ⟨f, rfl⟩ : ∃ f, fuel = f + 1 := ⟨fuel - 1, by omega⟩
    rw [Nat.add_zero] at hq
    simp only [messageLoop]
    rw [if_neg (fun h => h hq)]
    simp
  | succ n ih =>
    intro fuel k trace hlt hq hf
    obtain ⟨f, rfl⟩ : ∃ f, fuel = f + 1 := ⟨fuel - 1, by omega⟩
    have h0 : (env.GetMessage k).1 ≠ 0 := by
      have := hlt 0 (by omega)
      rwa [Nat.add_zero] at this
    simp only [messageLoop]
    rw [if_pos h0]
    have hlt2 : ∀ j < n, (env.GetMessage (k + 1 + j)).1 ≠ 0 := by
      intro j hj
      have := hlt (j + 1) (by omega)
      rwa [show k + (j + 1) = k + 1 + j by omega] at this
    have hq2 : (env.GetMessage (k + 1 + n)).1 = 0 := by
      rwa [show k + (n + 1) = k + 1 + n by omega] at hq
    rw [ih f (k + 1) _ hlt2 hq2 (by omega), range_succ_flatMap]
    have e : (fun j => iteration env (k + (j + 1))) = (fun j => iteration env (k + 1 + j)) := by
      funext j
      rw [show k + (j + 1) = k + 1 + j by omega]
    rw [e]
    simp only [iteration, List.append_assoc, Nat.add_zero]

/-- While no zero result has been seen the loop does not end. -/
theorem messageLoop_running (env : Env) :
    ∀ (fuel k : Nat) (trace : List Call),
      (∀ j < fuel, (env.GetMessage (k + j)).1 ≠ 0) → messageLoop env fuel k trace = none := by
  intro fuel
  induction fuel with
  | zero => intro k trace _; rfl
  | succ f ih =>
    intro k trace hlt
    have h0 : (env.GetMessage k).1 ≠ 0 := by
      have := hlt 0 (by omega)
      rwa [Nat.add_zero] at this
    simp only [messageLoop]
    rw [if_pos h0]
    apply ih
    intro j hj
    have := hlt (j + 1) (by omega)
    rwa [show k + (j + 1) = k + 1 + j by omega] at this

/-- The loop adds only its own three calls to the trace. -/
theorem messageLoop_count (env : Env) (c : Call) (hc : windowLoopCall c = false) :
    ∀ (fuel k : Nat) (trace out : List Call),
      messageLoop env fuel k trace = some out → out.count c = trace.count c := by
  have h1 : c ≠ Call.GetMessage := by rintro rfl; simp [windowLoopCall] at hc
  have h2 : ∀ m, c ≠ Call.TranslateMessage m := by rintro m rfl; simp [windowLoopCall] at hc
  have h3 : ∀ m, c ≠ Call.DispatchMessage m := by rintro m rfl; simp [windowLoopCall] at hc
  intro fuel
  induction fuel with
  | zero => intro k trace out h; simp [messageLoop] at h
  | succ f ih =>
    intro k trace out h
    simp only [messageLoop] at h
    split at h
    · rw [ih _ _ _ h, List.count_append]
      simp [List.count_cons, Ne.symm h1, Ne.symm (h2 _), Ne.symm (h3 _)]
    · simp only [Option.some.injEq] at h
      rw [← h, List.count_append]
      simp [List.count_cons, Ne.symm h1]

/-! ## `wWinMain` -/

/-- On the path through the message loop COM is torn down once, after the loop. -/
theorem wWinMain_success_count (env : Env) (fuel : Nat) (r : Int) (tr : List Call)
    (hc : env.Create = true) (h : wWinMain env fuel = some (r, tr)) :
    tr.count Call.CoInitializeEx = 1 ∧ tr.count Call.CoUninitialize = 1 := by
  unfold wWinMain at h
  rw [hc] at h
  simp only [Bool.not_true, Bool.false_eq_true, if_false] at h
  cases hm : messageLoop env fuel 0 (startup env ++ [Call.SetQuitOnClose true]) with
  | none => rw [hm] at h; simp at h
  | some out =>
    rw [hm] at h
    simp only [Option.some.injEq, Prod.mk.injEq] at h
    have hs := startup_count env
    have e1 := messageLoop_count env Call.CoInitializeEx rfl _ _ _ _ hm
    have e2 := messageLoop_count env Call.CoUninitialize rfl _ _ _ _ hm
    rw [← h.2, List.count_append, List.count_append, e1, e2, List.count_append,
      List.count_append, hs.1, hs.2]
    constructor <;> simp [List.count_cons]

/-- When `window.Create` fails, `wWinMain` returns `EXIT_FAILURE` at once: COM
has been initialised once and `CoUninitialize` is not called. -/
theorem wWinMain_create_failure (env : Env) (fuel : Nat) (hc : env.Create = false) :
    wWinMain env fuel = some (EXIT_FAILURE, startup env) ∧
      (startup env).count Call.CoInitializeEx = 1 ∧
      (startup env).count Call.CoUninitialize = 0 := by
  refine ⟨?_, startup_count env⟩
  unfold wWinMain
  rw [hc]
  rfl

/-- C8, on the failing run: with the arguments `["otzaria://book/123"]`, no
console, no debugger and a failing `window.Create`, `wWinMain` returns status 1
after the calls listed, among them one `CoInitializeEx` and no
`CoUninitialize`. -/
theorem wWinMain_failedCreateEnv (fuel : Nat) :
    wWinMain failedCreateEnv fuel =
        some (1, [Call.AttachConsole, Call.IsDebuggerPresent, Call.CoInitializeEx,
          Call.DartProject "data", Call.GetCommandLineArguments,
          Call.OutputDebugStringA "Arg ", Call.OutputDebugStringA "0",
          Call.OutputDebugStringA ": ", Call.OutputDebugStringA "otzaria://book/123",
          Call.OutputDebugStringA "\n",
          Call.OutputDebugStringA "Found URL in arguments: ",
          Call.OutputDebugStringA "otzaria://book/123", Call.OutputDebugStringA "\n",
          Call.set_dart_entrypoint_arguments
            ["otzaria://book/123", "--url=otzaria://book/123"],
          Call.FlutterWindow, Call.Create "אוצריא" (10, 10) (1280, 720)]) ∧
      (∀ (r : Int) (tr : List Call), wWinMain failedCreateEnv fuel = some (r, tr) →
        tr.count Call.CoInitializeEx = 1 ∧ tr.count Call.CoUninitialize = 0) := by
  have h := wWinMain_create_failure failedCreateEnv fuel rfl
  constructor
  · rw [h.1]
    decide
  · intro r tr hr
    rw [h.1] at hr
    simp only [Option.some.injEq, Prod.mk.injEq] at hr
    rw [← hr.2]
    exact h.2

/-- C9: when `window.Create` returns false, `wWinMain` returns `EXIT_FAILURE`,
which is not zero, and its trace holds no `SetQuitOnClose`, `GetMessage`,
`TranslateMessage` or `DispatchMessage` call; when `window.Create` returns true,
every status `wWinMain` returns is 0. -/
theorem wWinMain_create_status (env : Env) (fuel : Nat) :
    (env.Create = false →
      ∃ tr, wWinMain env fuel = some (EXIT_FAILURE, tr) ∧ EXIT_FAILURE ≠ 0 ∧
        ∀ c ∈ tr, windowLoopCall c = false) ∧
    (env.Create = true →
      ∀ (r : Int) (tr : List Call), wWinMain env fuel = some (r, tr) → r = 0) := by
  constructor
  · intro hc
    refine ⟨startup env, ?_, by decide, startup_no_windowLoopCall env⟩
    unfold wWinMain
    rw [hc]
    rfl
  · intro hc r tr h
    unfold wWinMain at h
    rw [hc] at h
    simp only [Bool.not_true, Bool.false_eq_true, if_false] at h
    cases hm : messageLoop env fuel 0 (startup env ++ [Call.SetQuitOnClose true]) with
    | none => rw [hm] at h; simp at h
    | some out =>
      rw [hm] at h
      simp only [Option.some.injEq, Prod.mk.injEq] at h
      rw [← h.1]
      rfl

/-- Both halves on concrete runs: a failing `window.Create`, and a run that quits
at the third `GetMessage`. -/
theorem wWinMain_create_status_witness :
    (∃ tr, wWinMain failedCreateEnv 0 = some (EXIT_FAILURE, tr) ∧ EXIT_FAILURE ≠ 0 ∧
        ∀ c ∈ tr, windowLoopCall c = false) ∧
      (∀ (r : Int) (tr : List Call), wWinMain quitAfterTwoEnv 3 = some (r, tr) → r = 0) :=
  ⟨(wWinMain_create_status failedCreateEnv 0).1 rfl,
    (wWinMain_create_status quitAfterTwoEnv 3).2 rfl⟩

/-- C10: when the window is created and the first zero result of `GetMessage`
is its call number `n`, `wWinMain` returns status 0 as soon as more than `n`
calls are allowed, after exactly `n` iterations that each translate and then
dispatch the message just retrieved, in order, followed by the final
`GetMessage` and `CoUninitialize`; with `n` calls or fewer allowed it is still
in the loop. -/
theorem wWinMain_message_loop (env : Env) (n : Nat) (hc : env.Create = true)
    (hlt : ∀ k < n, (env.GetMessage k).1 ≠ 0) (hq : (env.GetMessage n).1 = 0) :
    (∀ fuel, n < fuel →
      wWinMain env fuel =
        some (0, startup env ++ [Call.SetQuitOnClose true] ++
          (List.range n).flatMap (fun k => iteration env k) ++
          [Call.GetMessage, Call.CoUninitialize])) ∧
    (∀ fuel, fuel ≤ n → wWinMain env fuel = none) := by
  constructor
  · intro fuel hf
    have hlt2 : ∀ j < n, (env.GetMessage (0 + j)).1 ≠ 0 := by
      intro j hj; rw [Nat.zero_add]; exact hlt j hj
    have hq2 : (env.GetMessage (0 + n)).1 = 0 := by rw [Nat.zero_add]; exact hq
    have hm := messageLoop_quit env n fuel 0 (startup env ++ [Call.SetQuitOnClose true])
      hlt2 hq2 hf
    simp only [Nat.zero_add] at hm
    unfold wWinMain
    rw [hc]
    simp only [Bool.not_true, Bool.false_eq_true, if_false]
    rw [hm]
    simp [EXIT_SUCCESS]
  · intro fuel hf
    have hm := messageLoop_running env fuel 0 (startup env ++ [Call.SetQuitOnClose true])
      (fun j hj => by rw [Nat.zero_add]; exact hlt j (by omega))
    unfold wWinMain
    rw [hc]
    simp only [Bool.not_true, Bool.false_eq_true, if_false]
    rw [hm]

/-- Two messages, the second retrieved with result -1, then the quit message. -/
theorem wWinMain_message_loop_witness :
    (∀ fuel, 2 < fuel →
      wWinMain quitAfterTwoEnv fuel =
        some (0, startup quitAfterTwoEnv ++ [Call.SetQuitOnClose true] ++
          (List.range 2).flatMap (fun k => iteration quitAfterTwoEnv k) ++
          [Call.GetMessage, Call.CoUninitialize])) ∧
    (∀ fuel, fuel ≤ 2 → wWinMain quitAfterTwoEnv fuel = none) :=
  wWinMain_message_loop quitAfterTwoEnv 2 rfl (by decide) (by decide)

end Runner
